import Mathlib

/-!
Verification development for the endstone-landclaim plugin.

The Python source is shallowly embedded: claim dicts become a `Claim`
structure, settings lookups are collapsed to resolved values, and the
float distance comparisons of the source (`dist2d(...) <= r`,
`math.hypot(...) < needed`) are decided on integer squares, which is
exact for the integer-valued coordinates the source feeds them
(`sqrt d2 <= b  ↔  0 ≤ b ∧ d2 ≤ b²` and `sqrt d2 < b  ↔  0 < b ∧ d2 < b²`
for `d2 ≥ 0`); the repo's own `_inside` helper in `landclaimui.py` uses
exactly this squared form.
-/

set_option autoImplicit false
set_option maxRecDepth 100000

namespace LandClaim

/-- Embeds `dist2d(ax, az, bx, bz)` from `checks.py`, kept in squared form
(the source returns `((ax-bx)**2 + (az-bz)**2) ** 0.5`). -/
def dist2Sq (ax az bx bz : Int) : Int :=
  (ax - bx) * (ax - bx) + (az - bz) * (az - bz)

/-- Decides `sqrt d2 < b` on squares (valid because `sqrt d2 ≥ 0`). -/
def distLt (d2 b : Int) : Bool :=
  0 < b && d2 < b * b

/-- Decides `sqrt d2 ≤ b` on squares (valid because `sqrt d2 ≥ 0`). -/
def distLe (d2 b : Int) : Bool :=
  0 ≤ b && d2 ≤ b * b

theorem dist2Sq_nonneg (ax az bx bz : Int) : 0 ≤ dist2Sq ax az bx bz := by
  have h1 := mul_self_nonneg (ax - bx)
  have h2 := mul_self_nonneg (az - bz)
  unfold dist2Sq; omega

/-- The `mates` field of a claim dict: either a legacy list of names or a
name → rank mapping (`basemangment._mates_to_dict` accepts both). -/
inductive Mates where
  | mlist (names : List String)
  | mmap (entries : List (String × Int))
deriving DecidableEq, Repr

/-- The `flags` sub-object of a claim dict; `none` models an absent key. -/
structure FlagsObj where
  allow_build : Option Bool
  allow_interact : Option Bool
  allow_kill_passive : Option Bool
  security_build : Option Bool
  security_place_break : Option Bool
  security_interact : Option Bool
  security_kill_passive : Option Bool
deriving DecidableEq, Repr

/-- A claim dict. Geometry keys default to 0 in the source (`c.get("x", 0)`
etc.); the structure stores the values those lookups produce. The four
`legacy_*` fields model the deprecated top-level `security_*` keys
(`none` = key absent from the dict). -/
structure Claim where
  x : Int
  z : Int
  radius : Int
  dim : String
  flags : FlagsObj
  legacy_security_build : Option Bool
  legacy_security_place_break : Option Bool
  legacy_security_interact : Option Bool
  legacy_security_kill_passive : Option Bool
  mates : Mates
  buffer_rule : Option Int
deriving DecidableEq, Repr

/-- A flags sub-object with every key absent. -/
def emptyFlags : FlagsObj :=
  { allow_build := none, allow_interact := none, allow_kill_passive := none,
    security_build := none, security_place_break := none,
    security_interact := none, security_kill_passive := none }

/-- Whether `pat` is a prefix of `s` (character lists). -/
def charListPre : List Char → List Char → Bool
  | [], _ => true
  | _ :: _, [] => false
  | a :: as, b :: bs => a = b && charListPre as bs

/-- Whether `pat` occurs as a contiguous substring (Python's `in`). -/
def charListSub (pat : List Char) : List Char → Bool
  | [] => pat.isEmpty
  | c :: t => charListPre pat (c :: t) || charListSub pat t

/-- Python `pat in s` on strings. -/
def strContainsSub (s pat : String) : Bool := charListSub pat.data s.data

/-- Python `str.lower()` (per-character lowering). -/
def lowerStr (s : String) : String := String.mk (s.data.map Char.toLower)

/-- Python `str.strip()`: drop leading and trailing whitespace
(`rdropWhile p l = (l.reverse.dropWhile p).reverse`). -/
def trimStr (s : String) : String :=
  String.mk ((s.data.dropWhile Char.isWhitespace).rdropWhile Char.isWhitespace)

/-- Embeds `_norm_dim_str` from `checks.py`: lowercase, then substring-match
"nether" before "end", defaulting to "overworld". -/
def normDimStr (s : String) : String :=
  let t := lowerStr s
  if strContainsSub t "nether" then "nether"
  else if strContainsSub t "end" then "end"
  else "overworld"

/-- Embeds `claim_dim_key` from `checks.py` (string-typed `dim` values). -/
def claimDimKey (c : Claim) : String := normDimStr c.dim

/-- Embeds `claim_flags` from `checks.py`: normalize a claim's flag data to
`(allow_build, allow_interact, allow_kill_passive)`. `none` input models
the non-dict case (`if not isinstance(claim, dict)`). -/
def claim_flags (claim : Option Claim) : Bool × Bool × Bool :=
  match claim with
  | none => (false, false, false)
  | some c =>
    let flags := c.flags
    -- New-style explicit allow_* flags (dict .get default False)
    let allowBuild0 := flags.allow_build.getD false
    let allowInteract0 := flags.allow_interact.getD false
    let allowKill0 := flags.allow_kill_passive.getD false
    -- security_* flags within flags
    let secBuild0 := flags.security_build.getD (flags.security_place_break.getD false)
    let secInteract0 := flags.security_interact.getD false
    let secKill0 := flags.security_kill_passive.getD false
    -- Legacy root-level security_* keys, applied in source order
    -- (security_build, then security_place_break, then the other two),
    -- so a present legacy security_place_break overrides legacy security_build.
    let secBuild1 := c.legacy_security_build.getD secBuild0
    let secBuild2 := c.legacy_security_place_break.getD secBuild1
    let secInteract1 := c.legacy_security_interact.getD secInteract0
    let secKill1 := c.legacy_security_kill_passive.getD secKill0
    -- If explicit allow_* are not set, derive them from security toggles
    let allowBuild := if flags.allow_build.isSome then allowBuild0 else !secBuild2
    let allowInteract := if flags.allow_interact.isSome then allowInteract0 else !secInteract1
    let allowKill := if flags.allow_kill_passive.isSome then allowKill0 else !secKill1
    (allowBuild, allowInteract, allowKill)

/-- Embeds `point_in_claim` and the containment test inside `claim_at`:
`dist2d(x,z,cx,cz) <= r`, in squared form (the guard `0 ≤ radius`
captures that a real distance is never `≤` a negative radius). -/
def circleContains (x z : Int) (c : Claim) : Bool :=
  distLe (dist2Sq x z c.x c.z) c.radius

/-- The source's best-so-far sentinel `10**12` is a distance; its squared
counterpart is `10**24`. -/
def bestSentinelSq : Int := 10 ^ 24

/-- The selection loop of `claim_at` in `checks.py`: keep the containing
claim of strictly smallest center distance (first claim wins an exact
tie). The accumulator carries the squared best distance. -/
def claimAtAux (x z : Int) : List (String × Claim) →
    Option (String × Claim) × Int → Option (String × Claim) × Int
  | [], best => best
  | oc :: rest, best =>
    let d2 := dist2Sq x z oc.2.x oc.2.z
    let best' := if circleContains x z oc.2 = true ∧ d2 < best.2 then (some oc, d2) else best
    claimAtAux x z rest best'

/-- Embeds `claim_at` from `checks.py`: brute-force nearest-center containing
claim over a flat `(owner, claim)` list. -/
def claim_at (l : List (String × Claim)) (x z : Int) : Option (String × Claim) :=
  (claimAtAux x z l (none, bestSentinelSq)).1

/-- The selection loop of `_claim_at_with_grid`: same best-tracking as
`claim_at`, but skipping claims of a different dimension. -/
def claimAtDimAux (x z : Int) (dk : String) : List (String × Claim) →
    Option (String × Claim) × Int → Option (String × Claim) × Int
  | [], best => best
  | oc :: rest, best =>
    if claimDimKey oc.2 ≠ dk then claimAtDimAux x z dk rest best
    else
      let d2 := dist2Sq x z oc.2.x oc.2.z
      let best' := if circleContains x z oc.2 = true ∧ d2 < best.2 then (some oc, d2) else best
      claimAtDimAux x z dk rest best'

-- ── spatial index (grid) ────────────────────────────────────────────────────

/-- Embeds `_cell_of` from `checks.py`: Python `//` is floor division. -/
def cellOf (x z cell : Int) : Int × Int := (x.fdiv cell, z.fdiv cell)

/-- Whether `_ensure_index` inserts claim `c` into grid cell `g`: the
cell range of the claim's bounding square (center ± `abs(radius)`)
covers `g`. -/
def inCellRange (c : Claim) (cell : Int) (g : Int × Int) : Bool :=
  let r := |c.radius|
  let lo := cellOf (c.x - r) (c.z - r) cell
  let hi := cellOf (c.x + r) (c.z + r) cell
  lo.1 ≤ g.1 && g.1 ≤ hi.1 && lo.2 ≤ g.2 && g.2 ≤ hi.2

/-- One bucket of the grid built by `_ensure_index`. The Python dict
bucket at `(gx, gz)` holds, in flat-list order, exactly the claims whose
cell range covers `(gx, gz)`; a bucket is therefore a filter of the
flat list. -/
def gridBucket (flat : List (String × Claim)) (cell : Int) (g : Int × Int) :
    List (String × Claim) :=
  flat.filter (fun oc => inCellRange oc.2 cell g)

/-- The 3×3 cell neighborhood walked by `_claim_at_with_grid`
(`gx in (cx-1, cx, cx+1)` outer, `gz` inner). -/
def neighborhood (g : Int × Int) : List (Int × Int) :=
  [(g.1 - 1, g.2 - 1), (g.1 - 1, g.2), (g.1 - 1, g.2 + 1),
   (g.1, g.2 - 1), (g.1, g.2), (g.1, g.2 + 1),
   (g.1 + 1, g.2 - 1), (g.1 + 1, g.2), (g.1 + 1, g.2 + 1)]

/-- The candidate list gathered by `_claim_at_with_grid` from the 3×3
neighborhood around the query point's cell. -/
def gridCandidates (flat : List (String × Claim)) (cell : Int) (x z : Int) :
    List (String × Claim) :=
  (neighborhood (cellOf x z cell)).flatMap (fun g => gridBucket flat cell g)

/-- Embeds `_claim_at_with_grid` from `checks.py`, for a cache holding flat
list `flat` and cell size `cell` (the cache is only ever written by
`_ensure_index`, whose grid is determined by those two values).
`if cell = 0 then 64 else cell` models `int(cache.get("cell", 64)) or 64`;
`normDimStr dk` models `normalize_dim_key(dim_key or "overworld")`
(an empty string also normalizes to "overworld"). -/
def claimAtWithGrid (flat : List (String × Claim)) (cell : Int) (x z : Int)
    (dk : String) : Option (String × Claim) :=
  let cell := if cell = 0 then 64 else cell
  (claimAtDimAux x z (normDimStr dk) (gridCandidates flat cell x z)
    (none, bestSentinelSq)).1

/-- The brute-force reference of claim C3: `claim_at` over the flat list
restricted to one dimension. -/
def claimAtLinearDim (flat : List (String × Claim)) (dk : String) (x z : Int) :
    Option (String × Claim) :=
  claim_at (flat.filter (fun oc => claimDimKey oc.2 = normDimStr dk)) x z

/-- Abbreviation for the squared center distance of a candidate. -/
def cDist (x z : Int) (oc : String × Claim) : Int := dist2Sq x z oc.2.x oc.2.z

theorem claimAtAux_spec (x z : Int) (l : List (String × Claim))
    (best : Option (String × Claim) × Int) :
    (claimAtAux x z l best).2 ≤ best.2 ∧
    (∀ oc ∈ l, circleContains x z oc.2 = true →
        (claimAtAux x z l best).2 ≤ cDist x z oc) ∧
    (claimAtAux x z l best = best ∨
      ∃ oc ∈ l, circleContains x z oc.2 = true ∧
        (claimAtAux x z l best).1 = some oc ∧
        (claimAtAux x z l best).2 = cDist x z oc ∧
        (claimAtAux x z l best).2 < best.2) := by
  induction l generalizing best with
  | nil => simp [claimAtAux]
  | cons hd tl ih =>
    simp only [claimAtAux]
    by_cases hcond : circleContains x z hd.2 = true ∧
        dist2Sq x z hd.2.x hd.2.z < best.2
    · rw [if_pos hcond]
      obtain ⟨ih1, ih2, ih3⟩ := ih (some hd, dist2Sq x z hd.2.x hd.2.z)
      refine ⟨le_trans ih1 (le_of_lt hcond.2), ?_, ?_⟩
      · intro oc hmem hcont
        rcases List.mem_cons.mp hmem with h | h
        · subst h; exact ih1
        · exact ih2 oc h hcont
      · rcases ih3 with h | ⟨oc, hmem, hcont, h1, h2, h3⟩
        · right
          exact ⟨hd, List.mem_cons_self _ _, hcond.1, by rw [h], by rw [h]; rfl,
            by rw [h]; exact hcond.2⟩
        · right
          exact ⟨oc, List.mem_cons_of_mem _ hmem, hcont, h1, h2,
            lt_trans h3 hcond.2⟩
    · rw [if_neg hcond]
      obtain ⟨ih1, ih2, ih3⟩ := ih best
      refine ⟨ih1, ?_, ?_⟩
      · intro oc hmem hcont
        rcases List.mem_cons.mp hmem with h | h
        · subst h
          have : ¬ dist2Sq x z oc.2.x oc.2.z < best.2 := fun hlt => hcond ⟨hcont, hlt⟩
          exact le_trans ih1 (by unfold cDist; omega)
        · exact ih2 oc h hcont
      · rcases ih3 with h | ⟨oc, hmem, hcont, h1, h2, h3⟩
        · exact Or.inl h
        · exact Or.inr ⟨oc, List.mem_cons_of_mem _ hmem, hcont, h1, h2, h3⟩

/-- The dimension-filtering loop equals the plain loop over the
dimension-filtered list. -/
theorem claimAtDimAux_eq_filter (x z : Int) (dk : String)
    (l : List (String × Claim)) (best : Option (String × Claim) × Int) :
    claimAtDimAux x z dk l best =
      claimAtAux x z (l.filter (fun oc => claimDimKey oc.2 = dk)) best := by
  induction l generalizing best with
  | nil => rfl
  | cons hd tl ih =>
    by_cases hdim : claimDimKey hd.2 = dk
    · simp only [claimAtDimAux, List.filter_cons, hdim, ne_eq, not_true_eq_false,
        if_false, decide_True, if_true, ite_false, ite_true, claimAtAux]
      exact ih _
    · simp only [claimAtDimAux, List.filter_cons, hdim, ne_eq, not_false_eq_true,
        if_true, decide_False, ite_false, ite_true]
      exact ih best

/-- If `claim_at` returns a claim, it is a containing claim from the
list with minimal squared center distance (below the sentinel). -/
theorem claim_at_some_spec (l : List (String × Claim)) (x z : Int)
    (oc : String × Claim) (h : claim_at l x z = some oc) :
    oc ∈ l ∧ circleContains x z oc.2 = true ∧
      cDist x z oc < bestSentinelSq ∧
      (claimAtAux x z l (none, bestSentinelSq)).2 = cDist x z oc ∧
      ∀ oc' ∈ l, circleContains x z oc'.2 = true →
        cDist x z oc ≤ cDist x z oc' := by
  obtain ⟨_, h2, h3⟩ := claimAtAux_spec x z l (none, bestSentinelSq)
  rcases h3 with heq | ⟨oc', hmem, hcont, hs, hv, hlt⟩
  · rw [claim_at, heq] at h; cases h
  · rw [claim_at, hs] at h
    obtain rfl : oc' = oc := Option.some.inj h
    exact ⟨hmem, hcont, hv ▸ hlt, hv, fun oc'' hm hc => hv ▸ h2 oc'' hm hc⟩

/-- The lookup `claim_at` returns nothing iff no containing claim beats the
sentinel distance. -/
theorem claim_at_none_iff (l : List (String × Claim)) (x z : Int) :
    claim_at l x z = none ↔
      ∀ oc ∈ l, circleContains x z oc.2 = true →
        bestSentinelSq ≤ cDist x z oc := by
  obtain ⟨_, h2, h3⟩ := claimAtAux_spec x z l (none, bestSentinelSq)
  constructor
  · intro h oc hmem hcont
    rcases h3 with heq | ⟨oc', _, _, hs, hv, hlt⟩
    · have := h2 oc hmem hcont
      rw [heq] at this
      exact this
    · rw [claim_at, hs] at h; cases h
  · intro hall
    rcases h3 with heq | ⟨oc', hmem, hcont, hs, hv, hlt⟩
    · rw [claim_at, heq]
    · exfalso
      have := hall oc' hmem hcont
      omega

theorem fdiv_mono {a b c : Int} (hc : 0 < c) (h : a ≤ b) :
    a.fdiv c ≤ b.fdiv c := by
  rw [Int.fdiv_eq_ediv _ (le_of_lt hc), Int.fdiv_eq_ediv _ (le_of_lt hc)]
  exact Int.ediv_le_ediv hc h

/-- Every grid candidate comes from the flat list. -/
theorem gridCandidates_subset (flat : List (String × Claim)) (cell x z : Int)
    (oc : String × Claim) (h : oc ∈ gridCandidates flat cell x z) :
    oc ∈ flat := by
  rw [gridCandidates, List.mem_flatMap] at h
  obtain ⟨g, _, hmem⟩ := h
  exact List.mem_filter.mp hmem |>.1

/-- A claim whose circle contains the query point was indexed into the
query point's own grid cell, so it appears among the 3×3-neighborhood
candidates. -/
theorem gridCandidates_complete (flat : List (String × Claim)) (cell x z : Int)
    (hc : 0 < cell) (oc : String × Claim) (hmem : oc ∈ flat)
    (hcont : circleContains x z oc.2 = true) :
    oc ∈ gridCandidates flat cell x z := by
  have hr : 0 ≤ oc.2.radius ∧
      dist2Sq x z oc.2.x oc.2.z ≤ oc.2.radius * oc.2.radius := by
    have := hcont
    unfold circleContains distLe at this
    simp only [Bool.and_eq_true, decide_eq_true_eq] at this
    exact this
  obtain ⟨hr0, hd2⟩ := hr
  -- containment bounds each axis offset by the radius
  have hx : oc.2.x - oc.2.radius ≤ x ∧ x ≤ oc.2.x + oc.2.radius := by
    have h1 : (x - oc.2.x) * (x - oc.2.x) ≤ oc.2.radius * oc.2.radius := by
      have := mul_self_nonneg (z - oc.2.z)
      unfold dist2Sq at hd2; omega
    constructor
    · nlinarith [mul_self_nonneg (x - oc.2.x + oc.2.radius)]
    · nlinarith [mul_self_nonneg (x - oc.2.x - oc.2.radius)]
  have hz : oc.2.z - oc.2.radius ≤ z ∧ z ≤ oc.2.z + oc.2.radius := by
    have h1 : (z - oc.2.z) * (z - oc.2.z) ≤ oc.2.radius * oc.2.radius := by
      have := mul_self_nonneg (x - oc.2.x)
      unfold dist2Sq at hd2; omega
    constructor
    · nlinarith [mul_self_nonneg (z - oc.2.z + oc.2.radius)]
    · nlinarith [mul_self_nonneg (z - oc.2.z - oc.2.radius)]
  have habs : |oc.2.radius| = oc.2.radius := abs_of_nonneg hr0
  rw [gridCandidates, List.mem_flatMap]
  refine ⟨cellOf x z cell, ?_, ?_⟩
  · unfold neighborhood
    simp
  · rw [gridBucket, List.mem_filter]
    refine ⟨hmem, ?_⟩
    unfold inCellRange cellOf
    simp only [habs, Bool.and_eq_true, decide_eq_true_eq]
    exact ⟨⟨⟨fdiv_mono hc hx.1, fdiv_mono hc hx.2⟩, fdiv_mono hc hz.1⟩,
      fdiv_mono hc hz.2⟩

/-- The grid lookup is the plain nearest-center scan over the
dimension-filtered 3×3-neighborhood candidates. -/
theorem claimAtWithGrid_eq (flat : List (String × Claim)) (cell x z : Int)
    (dk : String) :
    claimAtWithGrid flat cell x z dk =
      claim_at ((gridCandidates flat (if cell = 0 then 64 else cell) x z).filter
        (fun oc => claimDimKey oc.2 = normDimStr dk)) x z := by
  unfold claimAtWithGrid claim_at
  dsimp only
  rw [claimAtDimAux_eq_filter]

/-- A containing same-dimension claim is in the filtered candidate list
iff it is in the filtered flat list. -/
theorem filtered_candidates_iff (flat : List (String × Claim)) (cell x z : Int)
    (dk : String) (hc : 0 < cell) (oc : String × Claim)
    (hcont : circleContains x z oc.2 = true) :
    (oc ∈ (gridCandidates flat cell x z).filter
        (fun oc' => claimDimKey oc'.2 = normDimStr dk)) ↔
      oc ∈ flat.filter (fun oc' => claimDimKey oc'.2 = normDimStr dk) := by
  constructor
  · intro h
    obtain ⟨hmem, hdim⟩ := List.mem_filter.mp h
    exact List.mem_filter.mpr ⟨gridCandidates_subset flat cell x z oc hmem, hdim⟩
  · intro h
    obtain ⟨hmem, hdim⟩ := List.mem_filter.mp h
    exact List.mem_filter.mpr
      ⟨gridCandidates_complete flat cell x z hc oc hmem hcont, hdim⟩

/-- C2: tie-break by nearest center. For every claim set, cell size,
dimension and point, whenever some same-dimension claim (with squared
center distance below the sentinel) contains the point, the
grid-accelerated lookup returns a same-dimension containing claim whose
center-to-point distance is minimal among all containing claims of that
dimension, regardless of list order. -/
theorem grid_lookup_nearest_center (flat : List (String × Claim))
    (cell x z : Int) (dk : String) (oc₀ : String × Claim) (hc : 0 < cell)
    (hmem : oc₀ ∈ flat) (hdim : claimDimKey oc₀.2 = normDimStr dk)
    (hcont : circleContains x z oc₀.2 = true)
    (hbound : cDist x z oc₀ < bestSentinelSq) :
    ∃ oc, claimAtWithGrid flat cell x z dk = some oc ∧ oc ∈ flat ∧
      claimDimKey oc.2 = normDimStr dk ∧ circleContains x z oc.2 = true ∧
      ∀ oc' ∈ flat, claimDimKey oc'.2 = normDimStr dk →
        circleContains x z oc'.2 = true → cDist x z oc ≤ cDist x z oc' := by
  have hcell : (if cell = 0 then 64 else cell) = cell := by
    rw [if_neg (by omega)]
  rw [claimAtWithGrid_eq, hcell]
  set L := (gridCandidates flat cell x z).filter
    (fun oc' => claimDimKey oc'.2 = normDimStr dk) with hL
  have h₀ : oc₀ ∈ L := by
    rw [hL]
    exact (filtered_candidates_iff flat cell x z dk hc oc₀ hcont).mpr
      (List.mem_filter.mpr ⟨hmem, by simp [hdim]⟩)
  cases hres : claim_at L x z with
  | none =>
    exfalso
    have := (claim_at_none_iff L x z).mp hres oc₀ h₀ hcont
    omega
  | some oc =>
    obtain ⟨hocL, hoccont, _, _, hmin⟩ := claim_at_some_spec L x z oc hres
    obtain ⟨hocCand, hocdim⟩ := List.mem_filter.mp hocL
    refine ⟨oc, rfl, gridCandidates_subset flat cell x z oc hocCand,
      by simpa using hocdim, hoccont, ?_⟩
    intro oc' hmem' hdim' hcont'
    have : oc' ∈ L := by
      rw [hL]
      exact (filtered_candidates_iff flat cell x z dk hc oc' hcont').mpr
        (List.mem_filter.mpr ⟨hmem', by simp [hdim']⟩)
    exact hmin oc' this hcont'

/-- C3 amended: the grid path and the linear scan agree on whether any
claim is found and on the minimal center distance, and return the very
same `(owner, claim)` whenever the nearest-center minimizer is unique;
on exact distance ties the two paths may pick different claims. -/
theorem grid_linear_agreement (flat : List (String × Claim)) (cell x z : Int)
    (dk : String) (hc : 0 < cell) :
    (claimAtWithGrid flat cell x z dk = none ↔
      claimAtLinearDim flat dk x z = none) ∧
    (∀ ocg ocl, claimAtWithGrid flat cell x z dk = some ocg →
      claimAtLinearDim flat dk x z = some ocl →
      cDist x z ocg = cDist x z ocl ∧ ocg ∈ flat ∧
        circleContains x z ocg.2 = true ∧ circleContains x z ocl.2 = true) ∧
    (∀ ocl, claimAtLinearDim flat dk x z = some ocl →
      (∀ oc' ∈ flat, claimDimKey oc'.2 = normDimStr dk →
        circleContains x z oc'.2 = true →
        cDist x z oc' = cDist x z ocl → oc' = ocl) →
      claimAtWithGrid flat cell x z dk = some ocl) := by
  have hcell : (if cell = 0 then 64 else cell) = cell := by
    rw [if_neg (by omega)]
  have hGeq := claimAtWithGrid_eq flat cell x z dk
  rw [hcell] at hGeq
  set G := (gridCandidates flat cell x z).filter
    (fun oc' => claimDimKey oc'.2 = normDimStr dk) with hGL
  set L := flat.filter (fun oc' => claimDimKey oc'.2 = normDimStr dk) with hLL
  have hiff : ∀ oc : String × Claim, circleContains x z oc.2 = true →
      (oc ∈ G ↔ oc ∈ L) := by
    intro oc hcont
    rw [hGL, hLL]
    exact filtered_candidates_iff flat cell x z dk hc oc hcont
  have hnone : claim_at G x z = none ↔ claim_at L x z = none := by
    rw [claim_at_none_iff, claim_at_none_iff]
    constructor
    · intro h oc hmem hcont
      exact h oc ((hiff oc hcont).mpr hmem) hcont
    · intro h oc hmem hcont
      exact h oc ((hiff oc hcont).mp hmem) hcont
  refine ⟨by rw [hGeq, claimAtLinearDim]; exact hnone, ?_, ?_⟩
  · intro ocg ocl hg hl
    rw [hGeq] at hg
    rw [claimAtLinearDim] at hl
    obtain ⟨hgL, hgcont, _, _, hgmin⟩ := claim_at_some_spec G x z ocg hg
    obtain ⟨hlL, hlcont, _, _, hlmin⟩ := claim_at_some_spec L x z ocl hl
    have h1 : cDist x z ocg ≤ cDist x z ocl :=
      hgmin ocl ((hiff ocl hlcont).mpr hlL) hlcont
    have h2 : cDist x z ocl ≤ cDist x z ocg :=
      hlmin ocg ((hiff ocg hgcont).mp hgL) hgcont
    exact ⟨le_antisymm h1 h2,
      gridCandidates_subset flat cell x z ocg (List.mem_filter.mp hgL).1,
      hgcont, hlcont⟩
  · intro ocl hl huniq
    cases hg : claimAtWithGrid flat cell x z dk with
    | none =>
      rw [hGeq] at hg
      rw [claimAtLinearDim] at hl
      rw [hnone] at hg
      rw [hg] at hl
      cases hl
    | some ocg =>
      have hg0 := hg
      rw [hGeq] at hg
      rw [claimAtLinearDim] at hl
      obtain ⟨hgL, hgcont, _, _, hgmin⟩ := claim_at_some_spec G x z ocg hg
      obtain ⟨hlL, hlcont, _, _, hlmin⟩ := claim_at_some_spec L x z ocl hl
      have h1 : cDist x z ocg ≤ cDist x z ocl :=
        hgmin ocl ((hiff ocl hlcont).mpr hlL) hlcont
      have h2 : cDist x z ocl ≤ cDist x z ocg :=
        hlmin ocg ((hiff ocg hgcont).mp hgL) hgcont
      have hocgL : ocg ∈ L := (hiff ocg hgcont).mp hgL
      obtain ⟨hocgF, hocgD⟩ := List.mem_filter.mp hocgL
      have : ocg = ocl := huniq ocg hocgF (by simpa using hocgD) hgcont
        (le_antisymm h1 h2)
      exact congrArg some this

/-- Concrete-input fixture: a claim with the given geometry, no flag
data, no mates, no stamped buffer. -/
def testClaim (x z radius : Int) (dim : String) : Claim :=
  { x := x, z := z, radius := radius, dim := dim, flags := emptyFlags,
    legacy_security_build := none, legacy_security_place_break := none,
    legacy_security_interact := none, legacy_security_kill_passive := none,
    mates := Mates.mlist [], buffer_rule := none }

/-- Witness for C2: in the spec's concrete instance (A at (0,0) r=100,
B at (30,0) r=100, lookup at (40,0)) the grid lookup returns B under
both storage orders, and the general theorem instantiates there. -/
theorem grid_lookup_nearest_center_witness :
    (claimAtWithGrid
        [("A", testClaim 0 0 100 "overworld"), ("B", testClaim 30 0 100 "overworld")]
        64 40 0 "overworld" = some ("B", testClaim 30 0 100 "overworld")) ∧
    (claimAtWithGrid
        [("B", testClaim 30 0 100 "overworld"), ("A", testClaim 0 0 100 "overworld")]
        64 40 0 "overworld" = some ("B", testClaim 30 0 100 "overworld")) ∧
    (∃ oc, claimAtWithGrid
        [("A", testClaim 0 0 100 "overworld"), ("B", testClaim 30 0 100 "overworld")]
        64 40 0 "overworld" = some oc ∧
      oc ∈ [("A", testClaim 0 0 100 "overworld"), ("B", testClaim 30 0 100 "overworld")] ∧
      claimDimKey oc.2 = normDimStr "overworld" ∧
      circleContains 40 0 oc.2 = true ∧
      ∀ oc' ∈ [("A", testClaim 0 0 100 "overworld"), ("B", testClaim 30 0 100 "overworld")],
        claimDimKey oc'.2 = normDimStr "overworld" →
        circleContains 40 0 oc'.2 = true → cDist 40 0 oc ≤ cDist 40 0 oc') :=
  ⟨by decide, by decide,
    grid_lookup_nearest_center
      [("A", testClaim 0 0 100 "overworld"), ("B", testClaim 30 0 100 "overworld")]
      64 40 0 "overworld" ("B", testClaim 30 0 100 "overworld")
      (by decide) (by decide) (by decide) (by decide) (by decide)⟩

/-- Counterexample to C3 as stated: with claim A at (8,0) r=8 and claim
B at (0,8) r=8 both containing (0,0) at equal center distance 8, the
grid path returns B while the linear scan returns A — the two paths
differ on an exact nearest-center tie. -/
theorem grid_linear_tie_counterexample :
    claimAtWithGrid
        [("A", testClaim 8 0 8 "overworld"), ("B", testClaim 0 8 8 "overworld")]
        64 0 0 "overworld" = some ("B", testClaim 0 8 8 "overworld") ∧
    claimAtLinearDim
        [("A", testClaim 8 0 8 "overworld"), ("B", testClaim 0 8 8 "overworld")]
        "overworld" 0 0 = some ("A", testClaim 8 0 8 "overworld") ∧
    claimAtWithGrid
        [("A", testClaim 8 0 8 "overworld"), ("B", testClaim 0 8 8 "overworld")]
        64 0 0 "overworld" ≠
      claimAtLinearDim
        [("A", testClaim 8 0 8 "overworld"), ("B", testClaim 0 8 8 "overworld")]
        "overworld" 0 0 :=
  ⟨by decide, by decide, by decide⟩

/-- Witness for C3 (amended): the agreement theorem instantiates at a
concrete claim set and cell size. -/
theorem grid_linear_agreement_witness :
    (claimAtWithGrid
        [("A", testClaim 0 0 100 "overworld"), ("B", testClaim 30 0 100 "overworld")]
        64 40 0 "overworld" = none ↔
      claimAtLinearDim
        [("A", testClaim 0 0 100 "overworld"), ("B", testClaim 30 0 100 "overworld")]
        "overworld" 40 0 = none) ∧
    (∀ ocg ocl, claimAtWithGrid
        [("A", testClaim 0 0 100 "overworld"), ("B", testClaim 30 0 100 "overworld")]
        64 40 0 "overworld" = some ocg →
      claimAtLinearDim
        [("A", testClaim 0 0 100 "overworld"), ("B", testClaim 30 0 100 "overworld")]
        "overworld" 40 0 = some ocl →
      cDist 40 0 ocg = cDist 40 0 ocl ∧
        ocg ∈ [("A", testClaim 0 0 100 "overworld"), ("B", testClaim 30 0 100 "overworld")] ∧
        circleContains 40 0 ocg.2 = true ∧ circleContains 40 0 ocl.2 = true) ∧
    (∀ ocl, claimAtLinearDim
        [("A", testClaim 0 0 100 "overworld"), ("B", testClaim 30 0 100 "overworld")]
        "overworld" 40 0 = some ocl →
      (∀ oc' ∈ [("A", testClaim 0 0 100 "overworld"), ("B", testClaim 30 0 100 "overworld")],
        claimDimKey oc'.2 = normDimStr "overworld" →
        circleContains 40 0 oc'.2 = true →
        cDist 40 0 oc' = cDist 40 0 ocl → oc' = ocl) →
      claimAtWithGrid
        [("A", testClaim 0 0 100 "overworld"), ("B", testClaim 30 0 100 "overworld")]
        64 40 0 "overworld" = some ocl) :=
  grid_linear_agreement
    [("A", testClaim 0 0 100 "overworld"), ("B", testClaim 30 0 100 "overworld")]
    64 40 0 "overworld" (by decide)

-- ── C1: flag resolution on missing data ─────────────────────────────────────

/-- C1 amended: a claim dict with no `allow_*` keys, no `security_*`
keys in its flags sub-object and no legacy top-level `security_*` keys
resolves OPEN — `claim_flags` returns `(true, true, true)`; only a
non-dict claim value resolves to `(false, false, false)`. -/
theorem claim_flags_missing_defaults_open (c : Claim)
    (h1 : c.flags = emptyFlags)
    (h2 : c.legacy_security_build = none)
    (h3 : c.legacy_security_place_break = none)
    (h4 : c.legacy_security_interact = none)
    (h5 : c.legacy_security_kill_passive = none) :
    claim_flags (some c) = (true, true, true) ∧
      claim_flags none = (false, false, false) := by
  constructor
  · simp [claim_flags, h1, h2, h3, h4, h5, emptyFlags]
  · rfl

/-- Counterexample to C1 as stated: a claim with no flag data at all
does NOT resolve to `(false, false, false)`. -/
theorem claim_flags_missing_not_blocked :
    claim_flags (some (testClaim 0 0 50 "overworld")) ≠ (false, false, false) ∧
      claim_flags (some (testClaim 0 0 50 "overworld")) = (true, true, true) :=
  ⟨by decide, by decide⟩

/-- Witness for C1 (amended) at a concrete flagless claim. -/
theorem claim_flags_missing_defaults_open_witness :
    claim_flags (some (testClaim 5 7 50 "overworld")) = (true, true, true) ∧
      claim_flags none = (false, false, false) :=
  claim_flags_missing_defaults_open (testClaim 5 7 50 "overworld")
    rfl rfl rfl rfl rfl

-- ── C4: version-gated cache invalidation (_ensure_index) ───────────────────

/-- The `_claims_cache` dict written by `_ensure_index`: stamped
version, stamped cell size and the flat `(owner, claim)` list (the grid
buckets are a function of the flat list and cell size, see
`gridBucket`). -/
structure IndexCache where
  version : Int
  cell : Int
  flat : List (String × Claim)
deriving DecidableEq, Repr

/-- The plugin attributes touched by `_ensure_index` and
`bump_claims_version`: the canonical players→claims data,
`_claims_version`, `_claims_cache` and `_claims_cache_tick`. -/
structure PluginState where
  players : List (String × List Claim)
  claimsVersion : Int
  cache : Option IndexCache
  cacheTick : Int
deriving DecidableEq, Repr

/-- Embeds `_iter_all_claims` from `checks.py`. -/
def iterAllClaims (players : List (String × List Claim)) :
    List (String × Claim) :=
  players.flatMap (fun p => p.2.map (fun c => (p.1, c)))

/-- Embeds `_cell_size` from `checks.py`: the configured cell size clamped to
[16, 256]. -/
def cellSizeClamp (cs : Int) : Int := max 16 (min 256 cs)

/-- Embeds `bump_claims_version` from `checks.py`. -/
def bump_claims_version (st : PluginState) (delta : Int) : PluginState :=
  { st with claimsVersion := st.claimsVersion + delta }

/-- The freshness test of `_ensure_index`: stamped version equals the
current version counter and stamped cell equals the wanted cell size. -/
def cacheFresh (st : PluginState) (wantCell : Int) : Bool :=
  match st.cache with
  | some c => decide (c.version = st.claimsVersion ∧ c.cell = wantCell)
  | none => false

/-- Embeds `_ensure_index` from `checks.py`, with the ambient tick
(`_cur_tick`) and the configured cell-size setting passed explicitly. -/
def ensure_index (st : PluginState) (nowTick settingCell : Int) :
    PluginState :=
  let wantCell := cellSizeClamp settingCell
  if st.cacheTick = nowTick then st
  else if cacheFresh st wantCell then { st with cacheTick := nowTick }
  else
    { st with
      cache := some ⟨st.claimsVersion, wantCell, iterAllClaims st.players⟩,
      cacheTick := nowTick }

/-- C4 amended: the version/cell-size gate holds only across ticks.
Whenever `_ensure_index` runs in a tick other than the one stamped on
the cache, the resulting cache's stamped version equals the current
version counter and its stamped cell equals the configured cell size
(rebuilding if stale); but in the tick of the previous run the state is
returned untouched, version mismatch or not. -/
theorem ensure_index_version_gate (st : PluginState)
    (nowTick settingCell : Int) :
    (st.cacheTick ≠ nowTick →
      ∃ c, (ensure_index st nowTick settingCell).cache = some c ∧
        c.version = st.claimsVersion ∧
        c.cell = cellSizeClamp settingCell ∧
        (ensure_index st nowTick settingCell).cacheTick = nowTick ∧
        (cacheFresh st (cellSizeClamp settingCell) = false →
          c.flat = iterAllClaims st.players)) ∧
    (st.cacheTick = nowTick → ensure_index st nowTick settingCell = st) := by
  constructor
  · intro hne
    unfold ensure_index
    rw [if_neg hne]
    cases hfresh : cacheFresh st (cellSizeClamp settingCell) with
    | true =>
      rw [if_pos rfl]
      unfold cacheFresh at hfresh
      cases hcache : st.cache with
      | none => rw [hcache] at hfresh; cases hfresh
      | some c =>
        rw [hcache] at hfresh
        have := of_decide_eq_true hfresh
        exact ⟨c, by simp [hcache], this.1, this.2, rfl, by intro h; cases h⟩
    | false =>
      rw [if_neg (by simp)]
      exact ⟨⟨st.claimsVersion, cellSizeClamp settingCell,
        iterAllClaims st.players⟩, rfl, rfl, rfl, rfl, fun _ => rfl⟩
  · intro heq
    unfold ensure_index
    rw [if_pos heq]

/-- Counterexample to C4 as stated: build the index at tick 5, bump the
version in the same tick, query again at tick 5 — `_ensure_index`
returns without rebuilding, so the query is answered from a cache whose
stamped version (0) differs from the current version counter (1). -/
theorem ensure_index_same_tick_stale :
    ∃ c, (ensure_index (bump_claims_version (ensure_index
        ⟨[("alice", [testClaim 0 0 50 "overworld"])], 0, none, -1⟩
        5 64) 1) 5 64).cache = some c ∧
      c.version = 0 ∧
      (ensure_index (bump_claims_version (ensure_index
        ⟨[("alice", [testClaim 0 0 50 "overworld"])], 0, none, -1⟩
        5 64) 1) 5 64).claimsVersion = 1 ∧
      c.version ≠ (ensure_index (bump_claims_version (ensure_index
        ⟨[("alice", [testClaim 0 0 50 "overworld"])], 0, none, -1⟩
        5 64) 1) 5 64).claimsVersion :=
  ⟨⟨0, 64, [("alice", testClaim 0 0 50 "overworld")]⟩,
    by decide, by decide, by decide, by decide⟩

/-- Witness for C4 (amended) at a concrete state and tick. -/
theorem ensure_index_version_gate_witness :
    ((-1 : Int) ≠ 5) ∧
    (∃ c, (ensure_index
        ⟨[("alice", [testClaim 0 0 50 "overworld"])], 0, none, -1⟩
        5 64).cache = some c ∧
      c.version = 0 ∧
      c.cell = cellSizeClamp 64 ∧
      (ensure_index
        ⟨[("alice", [testClaim 0 0 50 "overworld"])], 0, none, -1⟩
        5 64).cacheTick = 5 ∧
      (cacheFresh ⟨[("alice", [testClaim 0 0 50 "overworld"])], 0, none, -1⟩
          (cellSizeClamp 64) = false →
        c.flat = iterAllClaims [("alice", [testClaim 0 0 50 "overworld"])])) :=
  ⟨by decide,
    (ensure_index_version_gate
      ⟨[("alice", [testClaim 0 0 50 "overworld"])], 0, none, -1⟩ 5 64).1
      (by decide)⟩

-- ── C6: trust predicate (_trusted / is_basemate / is_admin) ─────────────────

/-- Embeds `is_admin` from `checks.py`, with the candidate admin sources
(admin store, settings blocks, plugin data; list form) collapsed into
one list. Membership is tested on stripped, lowercased names; an empty
acting name is never an admin. -/
def is_admin (admins : List String) (name : String) : Bool :=
  if name = "" then false
  else (admins.map (fun a => lowerStr (trimStr a))).contains
    (lowerStr (trimStr name))

/-- The names iterated by `is_basemate` (`for m in mates` walks dict
keys when the field is a mapping). -/
def matesNames (m : Mates) : List String :=
  match m with
  | .mlist l => l
  | .mmap l => l.map (fun p => p.1)

/-- Embeds `is_basemate` from `checks.py`: case-insensitive name membership
among the mates. `none` models a non-dict claim value. -/
def is_basemate (claim : Option Claim) (playerName : String) : Bool :=
  match claim with
  | none => false
  | some c => (matesNames c.mates).any
      (fun m => lowerStr m = lowerStr playerName)

/-- Embeds `_trusted` from `checks.py`. A missing owner is `none`; Python's
`if not owner_name` also rejects the empty string. The owner comparison
is the plain `==` of the source (case-sensitive). -/
def trusted (admins : List String) (actingName : String)
    (owner : Option String) (claim : Option Claim) : Bool :=
  match owner, claim with
  | some o, some c =>
    if o = "" then false
    else if is_admin admins actingName then true
    else if actingName = o then true
    else is_basemate (some c) actingName
  | _, _ => false

/-- C6 amended: `_trusted` accepts an admin (case-insensitively), the
owner by EXACT string equality, or any stored mate name up to letter
case — mate lookup is case-insensitive, owner comparison is not. -/
theorem trusted_cases (admins : List String) (acting o : String) (c : Claim)
    (ho : o ≠ "") :
    (acting = o → trusted admins acting (some o) (some c) = true) ∧
    ((matesNames c.mates).any (fun m => lowerStr m = lowerStr acting) = true →
      trusted admins acting (some o) (some c) = true) ∧
    (is_admin admins acting = true →
      trusted admins acting (some o) (some c) = true) := by
  refine ⟨?_, ?_, ?_⟩
  · intro h
    simp only [trusted]
    rw [if_neg ho]
    by_cases ha : is_admin admins acting = true
    · rw [if_pos ha]
    · rw [if_neg ha, if_pos h]
  · intro h
    simp only [trusted]
    rw [if_neg ho]
    by_cases ha : is_admin admins acting = true
    · rw [if_pos ha]
    · rw [if_neg ha]
      by_cases he : acting = o
      · rw [if_pos he]
      · rw [if_neg he]
        simp only [is_basemate]
        exact h
  · intro h
    simp only [trusted]
    rw [if_neg ho, if_pos h]

/-- Counterexample to C6 as stated: acting name "ALICE" equals owner
"alice" up to letter case, yet with no admins and no mates `_trusted`
rejects it — the owner comparison is case-sensitive. -/
theorem trusted_owner_case_sensitive :
    lowerStr "ALICE" = lowerStr "alice" ∧
      trusted [] "ALICE" (some "alice")
        (some (testClaim 0 0 50 "overworld")) = false :=
  ⟨by decide, by decide⟩

/-- Witness for C6 (amended): exact owner match, case-insensitive mate
match and case-insensitive admin match each grant trust. -/
theorem trusted_cases_witness :
    (("alice" : String) = "alice" →
      trusted [] "alice" (some "alice")
        (some (testClaim 0 0 50 "overworld")) = true) ∧
    ((matesNames (testClaim 0 0 50 "overworld").mates).any
        (fun m => lowerStr m = lowerStr "alice") = true →
      trusted [] "alice" (some "alice")
        (some (testClaim 0 0 50 "overworld")) = true) ∧
    (is_admin [] "alice" = true →
      trusted [] "alice" (some "alice")
        (some (testClaim 0 0 50 "overworld")) = true) :=
  trusted_cases [] "alice" "alice" (testClaim 0 0 50 "overworld") (by decide)

-- ── C9: mate normalization (_mates_to_dict) ─────────────────────────────────

/-- Python dict assignment `out[nm] = v` on an insertion-ordered
mapping: update the value in place when the key exists, else append. -/
def dictInsert (l : List (String × Int)) (k : String) (v : Int) :
    List (String × Int) :=
  match l with
  | [] => [(k, v)]
  | (k', v') :: t => if k' = k then (k, v) :: t else (k', v') :: dictInsert t k v

/-- Embeds `_mates_to_dict` from `basemangment.py`: normalize the `mates`
field to an insertion-ordered name → rank mapping; names are stripped,
empty names skipped, and ranks coerced by `1 if int(v) >= 1 else 0`;
legacy list entries get rank 0. -/
def matesToDict (m : Mates) : List (String × Int) :=
  match m with
  | .mmap entries =>
    entries.foldl (fun out p =>
      let nm := trimStr p.1
      if nm = "" then out else dictInsert out nm (if 1 ≤ p.2 then 1 else 0)) []
  | .mlist names =>
    names.foldl (fun out n =>
      let nm := trimStr n
      if nm = "" then out else dictInsert out nm 0) []

theorem trimStr_idem (s : String) : trimStr (trimStr s) = trimStr s := by
  unfold trimStr
  congr 1
  have hd : ((s.data.dropWhile Char.isWhitespace).rdropWhile
      Char.isWhitespace).dropWhile Char.isWhitespace =
      (s.data.dropWhile Char.isWhitespace).rdropWhile Char.isWhitespace := by
    cases hB : (s.data.dropWhile Char.isWhitespace).rdropWhile
        Char.isWhitespace with
    | nil => rfl
    | cons c rest =>
      obtain ⟨t, ht⟩ := List.rdropWhile_prefix (p := Char.isWhitespace)
        (l := s.data.dropWhile Char.isWhitespace)
      rw [hB] at ht
      have hA : s.data.dropWhile Char.isWhitespace = c :: (rest ++ t) := by
        rw [← ht]; rfl
      have hlen : 0 < (s.data.dropWhile Char.isWhitespace).length := by
        rw [hA]; simp
      have hget := List.dropWhile_get_zero_not (p := Char.isWhitespace)
        s.data hlen
      have hc : Char.isWhitespace c = false := by
        have : (s.data.dropWhile Char.isWhitespace).get ⟨0, hlen⟩ = c := by
          simp [hA]
        rw [this] at hget
        simpa using hget
      rw [List.dropWhile_cons, hc]
      simp
  rw [hd, List.rdropWhile_idempotent]

theorem mem_dictInsert (l : List (String × Int)) (k : String) (v : Int)
    (p : String × Int) (h : p ∈ dictInsert l k v) : p = (k, v) ∨ p ∈ l := by
  induction l with
  | nil => simpa [dictInsert] using h
  | cons hd tl ih =>
    rw [dictInsert] at h
    by_cases heq : hd.1 = k
    · rw [if_pos heq] at h
      rcases List.mem_cons.mp h with h | h
      · exact Or.inl h
      · exact Or.inr (List.mem_cons_of_mem _ h)
    · rw [if_neg heq] at h
      rcases List.mem_cons.mp h with h | h
      · exact Or.inr (h ▸ List.mem_cons_self _ _)
      · rcases ih h with h | h
        · exact Or.inl h
        · exact Or.inr (List.mem_cons_of_mem _ h)

theorem dictInsert_of_not_mem (l : List (String × Int)) (k : String) (v : Int)
    (h : k ∉ l.map Prod.fst) : dictInsert l k v = l ++ [(k, v)] := by
  induction l with
  | nil => rfl
  | cons hd tl ih =>
    simp only [List.map_cons, List.mem_cons] at h
    push_neg at h
    rw [dictInsert, if_neg (fun he => h.1 he.symm), ih h.2]
    rfl

theorem keys_dictInsert (l : List (String × Int)) (k : String) (v : Int)
    (q : String) (h : q ∈ (dictInsert l k v).map Prod.fst) :
    q = k ∨ q ∈ l.map Prod.fst := by
  obtain ⟨p, hp, hq⟩ := List.mem_map.mp h
  rcases mem_dictInsert l k v p hp with h | h
  · left; rw [← hq, h]
  · right; exact List.mem_map.mpr ⟨p, h, hq⟩

theorem nodup_keys_dictInsert (l : List (String × Int)) (k : String) (v : Int)
    (h : (l.map Prod.fst).Nodup) : ((dictInsert l k v).map Prod.fst).Nodup := by
  induction l with
  | nil => simp [dictInsert]
  | cons hd tl ih =>
    rw [List.map_cons, List.nodup_cons] at h
    by_cases heq : hd.1 = k
    · rw [dictInsert, if_pos heq, List.map_cons, List.nodup_cons]
      exact ⟨fun hc => h.1 (heq ▸ hc), h.2⟩
    · rw [dictInsert, if_neg heq, List.map_cons, List.nodup_cons]
      refine ⟨fun hc => ?_, ih h.2⟩
      rcases keys_dictInsert tl k v hd.1 hc with h1 | h1
      · exact heq h1
      · exact h.1 h1

/-- One step of the `_mates_to_dict` fold, generic in how an input item
provides its name and rank. -/
def matesStep {α : Type} (key : α → String) (rank : α → Int)
    (out : List (String × Int)) (a : α) : List (String × Int) :=
  let nm := trimStr (key a)
  if nm = "" then out else dictInsert out nm (rank a)

theorem matesToDict_mmap (entries : List (String × Int)) :
    matesToDict (.mmap entries) =
      entries.foldl (matesStep Prod.fst (fun p => if 1 ≤ p.2 then 1 else 0)) [] :=
  rfl

theorem matesToDict_mlist (names : List String) :
    matesToDict (.mlist names) =
      names.foldl (matesStep id (fun _ => 0)) [] :=
  rfl

theorem foldl_matesStep_mem {α : Type} (key : α → String) (rank : α → Int)
    (l : List α) (out : List (String × Int)) (p : String × Int)
    (h : p ∈ l.foldl (matesStep key rank) out) :
    p ∈ out ∨ ∃ a ∈ l, p.1 = trimStr (key a) ∧ p.2 = rank a ∧ p.1 ≠ "" := by
  induction l generalizing out with
  | nil => exact Or.inl h
  | cons hd tl ih =>
    rw [List.foldl_cons] at h
    rcases ih _ h with h | ⟨a, ha, h1, h2, h3⟩
    · unfold matesStep at h
      by_cases he : trimStr (key hd) = ""
      · rw [if_pos he] at h
        exact Or.inl h
      · rw [if_neg he] at h
        rcases mem_dictInsert _ _ _ _ h with h | h
        · right
          exact ⟨hd, List.mem_cons_self _ _, by rw [h], by rw [h], by rw [h]; exact he⟩
        · exact Or.inl h
    · exact Or.inr ⟨a, List.mem_cons_of_mem _ ha, h1, h2, h3⟩

theorem foldl_matesStep_nodup {α : Type} (key : α → String) (rank : α → Int)
    (l : List α) (out : List (String × Int))
    (h : (out.map Prod.fst).Nodup) :
    ((l.foldl (matesStep key rank) out).map Prod.fst).Nodup := by
  induction l generalizing out with
  | nil => exact h
  | cons hd tl ih =>
    rw [List.foldl_cons]
    apply ih
    unfold matesStep
    by_cases he : trimStr (key hd) = ""
    · rw [if_pos he]; exact h
    · rw [if_neg he]; exact nodup_keys_dictInsert _ _ _ h

/-- Folding already-canonical entries (stripped nonempty names, ranks
in {0,1}, no duplicate keys disjoint from the accumulator) appends them
unchanged. -/
theorem foldl_matesStep_canonical_id (l out : List (String × Int))
    (hcanon : ∀ p ∈ l, trimStr p.1 = p.1 ∧ p.1 ≠ "" ∧ (p.2 = 0 ∨ p.2 = 1))
    (hnodup : (l.map Prod.fst).Nodup)
    (hdisj : ∀ k ∈ l.map Prod.fst, k ∉ out.map Prod.fst) :
    l.foldl (matesStep Prod.fst (fun p => if 1 ≤ p.2 then 1 else 0)) out =
      out ++ l := by
  induction l generalizing out with
  | nil => simp
  | cons hd tl ih =>
    obtain ⟨htrim, hne, hrank⟩ := hcanon hd (List.mem_cons_self _ _)
    rw [List.map_cons, List.nodup_cons] at hnodup
    have hstep : matesStep Prod.fst (fun p => if 1 ≤ p.2 then 1 else 0) out hd
        = out ++ [hd] := by
      unfold matesStep
      rw [htrim, if_neg hne,
        dictInsert_of_not_mem _ _ _ (hdisj hd.1 (by simp))]
      have : (if 1 ≤ hd.2 then 1 else 0) = hd.2 := by
        rcases hrank with h0 | h1
        · rw [h0, if_neg (by omega)]
        · rw [h1, if_pos (by omega)]
      show out ++ [(hd.1, if 1 ≤ hd.2 then 1 else 0)] = out ++ [hd]
      rw [this]
    rw [List.foldl_cons, hstep, ih (out ++ [hd])
      (fun p hp => hcanon p (List.mem_cons_of_mem _ hp)) hnodup.2 ?_]
    · simp
    · intro k hk
      simp only [List.map_append, List.mem_append, List.map_cons,
        List.mem_singleton, List.map_nil]
      push_neg
      constructor
      · exact hdisj k (List.mem_cons_of_mem _ hk)
      · intro he
        simp only [he] at hk
        exact hnodup.1 hk

/-- C9: `_mates_to_dict` is idempotent (renormalizing its own output
is the identity); a legacy list normalizes with every entry at rank 0;
and every produced entry of a map input carries the {0,1}-coerced rank
(`rank >= 1 ↦ 1`) of a source entry with the same stripped name. -/
theorem mates_normalization (m : Mates) (names : List String)
    (entries : List (String × Int)) :
    matesToDict (.mmap (matesToDict m)) = matesToDict m ∧
    (∀ p ∈ matesToDict (.mlist names), p.2 = 0) ∧
    (∀ p ∈ matesToDict (.mmap entries), ∃ q ∈ entries,
      p.1 = trimStr q.1 ∧ p.2 = (if 1 ≤ q.2 then 1 else 0)) := by
  refine ⟨?_, ?_, ?_⟩
  · have hcanon : ∀ p ∈ matesToDict m,
        trimStr p.1 = p.1 ∧ p.1 ≠ "" ∧ (p.2 = 0 ∨ p.2 = 1) := by
      intro p hp
      cases m with
      | mlist ns =>
        rw [matesToDict_mlist] at hp
        rcases foldl_matesStep_mem _ _ _ _ _ hp with h | ⟨a, _, h1, h2, h3⟩
        · cases h
        · exact ⟨by rw [h1, trimStr_idem], h3, Or.inl h2⟩
      | mmap es =>
        rw [matesToDict_mmap] at hp
        rcases foldl_matesStep_mem _ _ _ _ _ hp with h | ⟨a, _, h1, h2, h3⟩
        · cases h
        · refine ⟨by rw [h1, trimStr_idem], h3, ?_⟩
          rw [h2]
          by_cases hr : 1 ≤ a.2
          · rw [if_pos hr]; exact Or.inr rfl
          · rw [if_neg hr]; exact Or.inl rfl
    have hnodup : ((matesToDict m).map Prod.fst).Nodup := by
      cases m with
      | mlist ns =>
        rw [matesToDict_mlist]
        exact foldl_matesStep_nodup _ _ _ _ (by simp)
      | mmap es =>
        rw [matesToDict_mmap]
        exact foldl_matesStep_nodup _ _ _ _ (by simp)
    rw [matesToDict_mmap,
      foldl_matesStep_canonical_id _ _ hcanon hnodup (by simp)]
    rfl
  · intro p hp
    rw [matesToDict_mlist] at hp
    rcases foldl_matesStep_mem _ _ _ _ _ hp with h | ⟨a, _, _, h2, _⟩
    · cases h
    · exact h2
  · intro p hp
    rw [matesToDict_mmap] at hp
    rcases foldl_matesStep_mem _ _ _ _ _ hp with h | ⟨a, ha, h1, h2, _⟩
    · cases h
    · exact ⟨a, ha, h1, h2⟩

-- ── C5: free-build areas override spawn security ────────────────────────────

/-- A free-build box `(x1,y1,z1)-(x2,y2,z2)` as parsed by
`_spawn_free_areas_cfg` (corners in any order). -/
structure FreeArea where
  x1 : Int
  y1 : Int
  z1 : Int
  x2 : Int
  y2 : Int
  z2 : Int
deriving DecidableEq, Repr

/-- Embeds `inside_spawn_free_area` from `checks.py`, applied to the parsed
box list of the queried dimension: inclusive containment per axis after
sorting each corner pair. -/
def insideSpawnFreeArea (areas : List FreeArea) (x y z : Int) : Bool :=
  areas.any (fun a =>
    let minx := min a.x1 a.x2
    let maxx := max a.x1 a.x2
    let miny := min a.y1 a.y2
    let maxy := max a.y1 a.y2
    let minz := min a.z1 a.z2
    let maxz := max a.z1 a.z2
    decide (minx ≤ x ∧ x ≤ maxx ∧ miny ≤ y ∧ y ≤ maxy ∧
      minz ≤ z ∧ z ≤ maxz))

/-- The per-dimension spawn security switches
(`spawn_security_<dim>_build` / `_interact` / `_kill_passive`;
`true` means blocked). -/
structure SpawnSec where
  build : Bool
  interact : Bool
  kill_passive : Bool
deriving DecidableEq, Repr

/-- Embeds `spawn_security_flags` from `checks.py`: allow = security off. -/
def spawnSecurityFlags (sec : SpawnSec) : Bool × Bool × Bool :=
  (!sec.build, !sec.interact, !sec.kill_passive)

/-- The key → deny dispatch ending `Protection._deny_if_forbidden`. -/
def keyDeny (allows : Bool × Bool × Bool) (key : String) : Bool :=
  if key = "visitors_place" ∨ key = "visitors_break" ∨ key = "visitors_build"
    then !allows.1
  else if key = "allow_interact" then !allows.2.1
  else if key = "block_kill_passive" then !allows.2.2
  else false

/-- Embeds `Protection._deny_if_forbidden`, with its collaborators passed as
resolved inputs: `isAdminOrMate` models `_is_admin_or_mate(p)`,
`inClaim` the `_player_in_claim` result, `areas` the free-build boxes
configured for the player's dimension, `(sx, sz, spr)` the
`spawn_cfg_2d` numbers and `sec` the dimension's spawn security
switches. The source's `dist2d(x,z,sx,sz) >= spr` is decided on squares
(`spr` is positive past the preceding `spr <= 0` early return). Returns
`true` iff the action keyed by `key` is denied. -/
def denyIfForbidden (isAdminOrMate : Bool)
    (inClaim : Option (String × Claim)) (x y z : Int)
    (areas : List FreeArea) (sx sz spr : Int) (sec : SpawnSec)
    (key : String) : Bool :=
  if isAdminOrMate then false
  else
    match inClaim with
    | some oc => keyDeny (claim_flags (some oc.2)) key
    | none =>
      if insideSpawnFreeArea areas x y z then false
      else if spr ≤ 0 then false
      else if spr * spr ≤ dist2Sq x z sx sz then false
      else keyDeny (spawnSecurityFlags sec) key

/-- C5: with no claim at the point and the point inside a configured
free-build box of its dimension, `_deny_if_forbidden` allows build,
interact and kill-passive for every actor and action key, whatever the
spawn center, radius and security switches — the free-build overlay is
tested before the spawn-radius logic. -/
theorem free_area_overrides_spawn (adm : Bool) (x y z : Int)
    (areas : List FreeArea) (sx sz spr : Int) (sec : SpawnSec) (key : String)
    (hfree : insideSpawnFreeArea areas x y z = true) :
    denyIfForbidden adm none x y z areas sx sz spr sec key = false := by
  unfold denyIfForbidden
  cases adm
  · simp [hfree]
  · simp

/-- Witness for C5 at the spec's concrete instance: spawn security
build=blocked with radius 100 covering (10, 10) in the overworld, and a
free-build box covering the same point — the action is allowed; with
the box removed, the same configuration denies it. -/
theorem free_area_overrides_spawn_witness :
    insideSpawnFreeArea [⟨0, -64, 0, 20, 320, 20⟩] 10 64 10 = true ∧
    denyIfForbidden false none 10 64 10 [⟨0, -64, 0, 20, 320, 20⟩] 0 0 100
      ⟨true, true, true⟩ "visitors_build" = false ∧
    denyIfForbidden false none 10 64 10 [] 0 0 100
      ⟨true, true, true⟩ "visitors_build" = true :=
  ⟨by decide,
    free_area_overrides_spawn false 10 64 10 [⟨0, -64, 0, 20, 320, 20⟩]
      0 0 100 ⟨true, true, true⟩ "visitors_build" (by decide),
    by decide⟩

/-- Witness for C9 at concrete legacy and map inputs. -/
theorem mates_normalization_witness :
    (matesToDict (.mmap (matesToDict (Mates.mlist ["Bob", "carol"]))) =
        matesToDict (Mates.mlist ["Bob", "carol"])) ∧
    matesToDict (Mates.mlist ["Bob", "carol"]) = [("Bob", 0), ("carol", 0)] ∧
    matesToDict (Mates.mmap [("Bob", 3), ("carol", -2)]) =
      [("Bob", 1), ("carol", 0)] :=
  ⟨(mates_normalization (Mates.mlist ["Bob", "carol"]) [] []).1,
    by decide, by decide⟩

-- ── C7: strict spacing-conflict boundary (_conflicts_with_bases) ────────────

/-- A structured conflict record as built by `_conflicts_with_bases`:
offending owner, the offending claim's center and its dimension. -/
structure Offender where
  owner : String
  cx : Int
  cz : Int
  dim : String
deriving DecidableEq, Repr

/-- The `seen`-set dedupe ending `_conflicts_with_bases`: keep the
first occurrence of each record. -/
def dedupeOffenders (seen : List Offender) : List Offender → List Offender
  | [] => []
  | o :: t =>
    if o ∈ seen then dedupeOffenders seen t
    else o :: dedupeOffenders (o :: seen) t

/-- The per-claim scan of `_conflicts_with_bases`: skip other
dimensions and the ignored center, then report a conflict iff the
centers are strictly closer than `r + r_other + max(curBuf, otherBuf)`
(`d < needed` decided on squares; a claim's stamped `buffer_rule`
defaults to the current rule) and the owner differs. -/
def offendersRaw (curBuf : Int) (owner : String) (x z r : Int)
    (dimHere : String) (ignore : Option (Int × Int))
    (claims : List (String × Claim)) : List Offender :=
  claims.filterMap (fun oc =>
    let c := oc.2
    let cdim := claimDimKey c
    if cdim ≠ dimHere then none
    else if ignore = some (c.x, c.z) then none
    else
      let otherBuf := c.buffer_rule.getD curBuf
      let needed := r + c.radius + max curBuf otherBuf
      if distLt (dist2Sq x z c.x c.z) needed = true ∧ oc.1 ≠ owner
      then some ⟨oc.1, c.x, c.z, cdim⟩ else none)

/-- Embeds `_conflicts_with_bases` from `landclaimui.py`. -/
def conflictsWithBases (curBuf : Int) (owner : String) (x z r : Int)
    (dimHere : String) (ignore : Option (Int × Int))
    (claims : List (String × Claim)) : List Offender :=
  dedupeOffenders [] (offendersRaw curBuf owner x z r dimHere ignore claims)

theorem mem_dedupeOffenders (l : List Offender) (seen : List Offender)
    (o : Offender) : o ∈ dedupeOffenders seen l ↔ o ∈ l ∧ o ∉ seen := by
  induction l generalizing seen with
  | nil => simp [dedupeOffenders]
  | cons hd tl ih =>
    rw [dedupeOffenders]
    by_cases hs : hd ∈ seen
    · rw [if_pos hs, ih]
      constructor
      · rintro ⟨h1, h2⟩
        exact ⟨List.mem_cons_of_mem _ h1, h2⟩
      · rintro ⟨h1, h2⟩
        rcases List.mem_cons.mp h1 with h | h
        · exact absurd (h ▸ hs) h2
        · exact ⟨h, h2⟩
    · rw [if_neg hs]
      constructor
      · intro h
        rcases List.mem_cons.mp h with h | h
        · exact ⟨h ▸ List.mem_cons_self _ _, h ▸ hs⟩
        · obtain ⟨h1, h2⟩ := (ih (hd :: seen)).mp h
          simp only [List.mem_cons] at h2
          push_neg at h2
          exact ⟨List.mem_cons_of_mem _ h1, h2.2⟩
      · rintro ⟨h1, h2⟩
        rcases List.mem_cons.mp h1 with h | h
        · exact h ▸ List.mem_cons_self _ _
        · by_cases he : o = hd
          · exact he ▸ List.mem_cons_self _ _
          · refine List.mem_cons_of_mem _ ((ih (hd :: seen)).mpr ⟨h, ?_⟩)
            simp only [List.mem_cons]
            push_neg
            exact ⟨he, h2⟩

/-- C7: a conflict record for some existing claim appears in the
`_conflicts_with_bases` output iff that claim shares the dimension, is
not the ignored center, belongs to a different owner, and its center is
STRICTLY closer than `r + r_other + max(curBuf, otherBuf)` — a distance
exactly equal to the needed distance is not a conflict — and every
reported conflict names the offender's owner, center and dimension. -/
theorem spacing_conflict_boundary (curBuf : Int) (owner : String)
    (x z r : Int) (dimHere : String) (ignore : Option (Int × Int))
    (claims : List (String × Claim)) (off : Offender) :
    off ∈ conflictsWithBases curBuf owner x z r dimHere ignore claims ↔
      ∃ oc ∈ claims, claimDimKey oc.2 = dimHere ∧
        ignore ≠ some (oc.2.x, oc.2.z) ∧
        oc.1 ≠ owner ∧
        distLt (dist2Sq x z oc.2.x oc.2.z)
          (r + oc.2.radius + max curBuf (oc.2.buffer_rule.getD curBuf)) = true ∧
        off = ⟨oc.1, oc.2.x, oc.2.z, dimHere⟩ := by
  rw [conflictsWithBases, mem_dedupeOffenders,
    and_iff_left (List.not_mem_nil off), offendersRaw, List.mem_filterMap]
  constructor
  · rintro ⟨oc, hoc, hf⟩
    simp only at hf
    by_cases h1 : claimDimKey oc.2 = dimHere
    swap
    · rw [if_pos h1] at hf; cases hf
    rw [if_neg (not_not_intro h1)] at hf
    by_cases h2 : ignore = some (oc.2.x, oc.2.z)
    · rw [if_pos h2] at hf; cases hf
    rw [if_neg h2] at hf
    by_cases h3 : distLt (dist2Sq x z oc.2.x oc.2.z)
        (r + oc.2.radius + max curBuf (oc.2.buffer_rule.getD curBuf)) = true ∧
        oc.1 ≠ owner
    · rw [if_pos h3] at hf
      exact ⟨oc, hoc, h1, h2, h3.2, h3.1, by rw [← Option.some.inj hf, h1]⟩
    · rw [if_neg h3] at hf; cases hf
  · rintro ⟨oc, hoc, h1, h2, h3, h4, h5⟩
    refine ⟨oc, hoc, ?_⟩
    simp only
    rw [if_neg (not_not_intro h1), if_neg h2, if_pos ⟨h4, h3⟩, h5, h1]

/-- Witness for C7 at the spec's boundary instance: existing claim A at
(0,0) r=100 buffer=50, proposed center (200,0): at radius 50 the needed
distance is exactly 200 = d, so no conflict; at radius 51 the claim
conflicts and is reported with owner, center and dimension. -/
theorem spacing_conflict_boundary_witness :
    (¬ ((⟨"A", 0, 0, "overworld"⟩ : Offender) ∈ conflictsWithBases 50 "bob"
        200 0 50 "overworld" none
        [("A", { testClaim 0 0 100 "overworld" with buffer_rule := some 50 })])) ∧
    conflictsWithBases 50 "bob" 200 0 50 "overworld" none
        [("A", { testClaim 0 0 100 "overworld" with buffer_rule := some 50 })] = [] ∧
    conflictsWithBases 50 "bob" 200 0 51 "overworld" none
        [("A", { testClaim 0 0 100 "overworld" with buffer_rule := some 50 })] =
      [⟨"A", 0, 0, "overworld"⟩] :=
  ⟨fun h => by
    have := (spacing_conflict_boundary 50 "bob" 200 0 50 "overworld" none
      [("A", { testClaim 0 0 100 "overworld" with buffer_rule := some 50 })]
      ⟨"A", 0, 0, "overworld"⟩).mp h
    revert this
    decide, by decide, by decide⟩

-- ── C8: maximum feasible new-claim radius (_compute_new_claim_cap) ──────────

/-- Embeds `_spawn_blocked` from `landclaimui.py`: blocked iff a spawn config
exists for the dimension and `d < r + min_from_spawn` (decided on
squares). `cfg` is the parsed `_spawn_cfg` triple `(sx, sz, radius)`. -/
def spawnBlocked (cfg : Option (Int × Int × Int)) (x z r : Int) : Bool :=
  match cfg with
  | none => false
  | some (sx, sz, minFromSpawn) =>
    distLt (dist2Sq x z sx sz) (r + minFromSpawn)

/-- The `while r <= admin_cap` loop of `_compute_new_claim_cap`: a
spawn-blocked step returns 0 outright, a conflicting step stops with
the best so far, otherwise the step is recorded and the radius grows
by 50. -/
def newClaimCapAux (blocked conflict : Int → Bool) (cap r best : Int) : Int :=
  if h : r ≤ cap then
    if blocked r then 0
    else if conflict r then best
    else newClaimCapAux blocked conflict cap (r + 50) r
  else best
termination_by (cap + 50 - r).toNat
decreasing_by simp_wf; omega

/-- Embeds `_compute_new_claim_cap` from `landclaimui.py`, starting at radius
50 with best 0 (`if _conflicts_with_bases(...)` tests list
non-emptiness). -/
def computeNewClaimCap (cfg : Option (Int × Int × Int)) (curBuf : Int)
    (owner : String) (x z : Int) (dimHere : String)
    (claims : List (String × Claim)) (adminCap : Int) : Int :=
  newClaimCapAux (fun r => spawnBlocked cfg x z r)
    (fun r => decide
      (conflictsWithBases curBuf owner x z r dimHere none claims ≠ []))
    adminCap 50 0

theorem newClaimCapAux_cases (blocked conflict : Int → Bool) (cap : Int) :
    ∀ (n : Nat) (r best : Int), (cap + 50 - r).toNat ≤ n →
    newClaimCapAux blocked conflict cap r best = 0 ∨
    (newClaimCapAux blocked conflict cap r best = best ∧
      (cap < r ∨ (blocked r = false ∧ conflict r = true))) ∨
    (∃ s, r ≤ s ∧ s ≤ cap ∧ newClaimCapAux blocked conflict cap r best = s ∧
      (s - r) % 50 = 0 ∧
      (∀ s', r ≤ s' → s' ≤ s → (s' - r) % 50 = 0 →
        blocked s' = false ∧ conflict s' = false) ∧
      (cap < s + 50 ∨ (blocked (s + 50) = false ∧ conflict (s + 50) = true))) := by
  intro n
  induction n with
  | zero =>
    intro r best h
    have hnr : ¬ r ≤ cap := by omega
    rw [newClaimCapAux, dif_neg hnr]
    exact Or.inr (Or.inl ⟨rfl, Or.inl (by omega)⟩)
  | succ n ih =>
    intro r best h
    by_cases hr : r ≤ cap
    · rw [newClaimCapAux, dif_pos hr]
      by_cases hb : blocked r = true
      · rw [if_pos hb]
        exact Or.inl rfl
      · rw [if_neg hb]
        by_cases hcf : conflict r = true
        · rw [if_pos hcf]
          exact Or.inr (Or.inl ⟨rfl, Or.inr ⟨Bool.eq_false_iff.mpr hb, hcf⟩⟩)
        · rw [if_neg hcf]
          have hn : (cap + 50 - (r + 50)).toNat ≤ n := by omega
          rcases ih (r + 50) r hn with
            h0 | ⟨hbest, hreason⟩ | ⟨s, hs1, hs2, hs3, hs4, hs5, hs6⟩
          · exact Or.inl h0
          · right; right
            refine ⟨r, le_refl r, hr, hbest, by omega, ?_, hreason⟩
            intro s' h1 h2 _
            have hse : s' = r := by omega
            subst hse
            exact ⟨Bool.eq_false_iff.mpr hb, Bool.eq_false_iff.mpr hcf⟩
          · right; right
            refine ⟨s, by omega, hs2, hs3, by omega, ?_, hs6⟩
            intro s' h1 h2 h3
            by_cases he : s' = r
            · subst he
              exact ⟨Bool.eq_false_iff.mpr hb, Bool.eq_false_iff.mpr hcf⟩
            · exact hs5 s' (by omega) h2 (by omega)
    · rw [newClaimCapAux, dif_neg hr]
      exact Or.inr (Or.inl ⟨rfl, Or.inl (by omega)⟩)

theorem newClaimCapAux_blocked_zero (blocked conflict : Int → Bool)
    (cap : Int) :
    ∀ (k : Nat) (r best : Int), r + 50 * (k : Int) ≤ cap →
    blocked (r + 50 * (k : Int)) = true →
    (∀ s', r ≤ s' → s' < r + 50 * (k : Int) → (s' - r) % 50 = 0 →
      blocked s' = false ∧ conflict s' = false) →
    newClaimCapAux blocked conflict cap r best = 0 := by
  intro k
  induction k with
  | zero =>
    intro r best hcap hb _
    simp only [Nat.cast_zero, mul_zero, add_zero] at hcap hb
    rw [newClaimCapAux, dif_pos hcap, if_pos hb]
  | succ k ih =>
    intro r best hcap hb hall
    have hr : r ≤ cap := by push_cast at hcap; omega
    have hbr := hall r (le_refl r) (by push_cast; omega) (by omega)
    rw [newClaimCapAux, dif_pos hr, if_neg (by rw [hbr.1]; simp),
      if_neg (by rw [hbr.2]; simp)]
    refine ih (r + 50) r (by push_cast at hcap ⊢; omega)
      (by push_cast at hb ⊢; convert hb using 2; omega) ?_
    intro s' h1 h2 h3
    refine hall s' (by omega) (by push_cast at h2 ⊢; omega) (by omega)

/-- C8 amended: `_compute_new_claim_cap` steps 50, 100, … up to the
cap; whenever it returns a non-zero radius, that radius is the LARGEST
stepped radius ≤ cap such that every stepped radius up to it is neither
spawn-blocked nor in conflict (any stepped radius with an all-feasible
chain of stepped predecessors is ≤ the result); but a spawn-blocked
step makes it return 0 outright, even when smaller stepped radii were
feasible — so 0 does not mean "radius 50 is infeasible". -/
theorem compute_new_claim_cap_cases (cfg : Option (Int × Int × Int))
    (curBuf : Int) (owner : String) (x z : Int) (dimHere : String)
    (claims : List (String × Claim)) (adminCap : Int) :
    (computeNewClaimCap cfg curBuf owner x z dimHere claims adminCap ≠ 0 →
      50 ≤ computeNewClaimCap cfg curBuf owner x z dimHere claims adminCap ∧
      computeNewClaimCap cfg curBuf owner x z dimHere claims adminCap ≤ adminCap ∧
      computeNewClaimCap cfg curBuf owner x z dimHere claims adminCap % 50 = 0 ∧
      (∀ s, 50 ≤ s →
        s ≤ computeNewClaimCap cfg curBuf owner x z dimHere claims adminCap →
        s % 50 = 0 →
        spawnBlocked cfg x z s = false ∧
        conflictsWithBases curBuf owner x z s dimHere none claims = []) ∧
      (∀ t, 50 ≤ t → t ≤ adminCap → t % 50 = 0 →
        (∀ s', 50 ≤ s' → s' ≤ t → s' % 50 = 0 →
          spawnBlocked cfg x z s' = false ∧
          conflictsWithBases curBuf owner x z s' dimHere none claims = []) →
        t ≤ computeNewClaimCap cfg curBuf owner x z dimHere claims adminCap)) ∧
    (∀ s, 50 ≤ s → s ≤ adminCap → s % 50 = 0 →
      spawnBlocked cfg x z s = true →
      (∀ s', 50 ≤ s' → s' < s → s' % 50 = 0 →
        spawnBlocked cfg x z s' = false ∧
        conflictsWithBases curBuf owner x z s' dimHere none claims = []) →
      computeNewClaimCap cfg curBuf owner x z dimHere claims adminCap = 0) := by
  constructor
  · intro hne
    rcases newClaimCapAux_cases (fun r => spawnBlocked cfg x z r)
        (fun r => decide
          (conflictsWithBases curBuf owner x z r dimHere none claims ≠ []))
        adminCap (adminCap + 50 - 50).toNat 50 0 (le_refl _) with
      h0 | ⟨h0, _⟩ | ⟨s, hs1, hs2, hs3, hs4, hs5, hs6⟩
    · exact absurd h0 hne
    · exact absurd h0 hne
    · rw [computeNewClaimCap, hs3]
      refine ⟨hs1, hs2, by omega, ?_, ?_⟩
      · intro s' h1 h2 h3
        have := hs5 s' h1 h2 (by omega)
        refine ⟨this.1, ?_⟩
        have h4 := this.2
        simp only [decide_eq_false_iff_not, not_not] at h4
        exact h4
      · intro t ht1 ht2 ht3 hchain
        by_contra hlt
        push_neg at hlt
        have hst : s + 50 ≤ t := by omega
        rcases hs6 with h | ⟨_, hc⟩
        · omega
        · have hceq := (hchain (s + 50) (by omega) hst (by omega)).2
          exact absurd hceq (of_decide_eq_true hc)
  · intro s h1 h2 h3 hb hall
    obtain ⟨k, hk⟩ : ∃ k : ℕ, s = 50 + 50 * (k : Int) :=
      ⟨(s - 50).toNat / 50, by omega⟩
    rw [computeNewClaimCap]
    refine newClaimCapAux_blocked_zero _ _ adminCap k 50 0
      (by omega) (by rw [← hk]; exact hb) ?_
    intro s' hs1 hs2 hs3
    have := hall s' hs1 (by omega) (by omega)
    exact ⟨this.1, by rw [decide_eq_false_iff_not, not_not]; exact this.2⟩

/-- Counterexample to C8 as stated: with spawn at (0,0) and
min-from-spawn 60, point (140, 0), no other claims and cap 200, radius
50 is feasible (not blocked, no conflicts) yet `_compute_new_claim_cap`
returns 0, because the loop hits the spawn block at radius 100 and
returns 0 outright instead of the feasible 50. -/
theorem compute_new_claim_cap_counterexample :
    computeNewClaimCap (some (0, 0, 60)) 200 "bob" 140 0 "overworld" [] 200 = 0 ∧
    spawnBlocked (some (0, 0, 60)) 140 0 50 = false ∧
    conflictsWithBases 200 "bob" 140 0 50 "overworld" none [] = [] ∧
    spawnBlocked (some (0, 0, 60)) 140 0 100 = true := by
  refine ⟨?_, by decide, by decide, by decide⟩
  rw [computeNewClaimCap, newClaimCapAux]
  norm_num [spawnBlocked, distLt, dist2Sq, conflictsWithBases, offendersRaw,
    dedupeOffenders]
  rw [newClaimCapAux]
  norm_num [spawnBlocked, distLt, dist2Sq]

/-- Witness for C8 (amended): a configuration blocked already at radius
50 returns 0 by the theorem's second part, and in an unobstructed
configuration with cap 200 the returned 200 dominates every stepped
radius with an all-feasible chain, by the theorem's maximality part. -/
theorem compute_new_claim_cap_witness :
    (computeNewClaimCap (some (0, 0, 60)) 200 "bob" 100 0 "overworld" [] 200
        = 0 ∧
      spawnBlocked (some (0, 0, 60)) 100 0 50 = true) ∧
    (computeNewClaimCap none 200 "bob" 0 0 "overworld" [] 200 = 200 ∧
      ∀ t, 50 ≤ t → t ≤ 200 → t % 50 = 0 →
        (∀ s', 50 ≤ s' → s' ≤ t → s' % 50 = 0 →
          spawnBlocked none 0 0 s' = false ∧
          conflictsWithBases 200 "bob" 0 0 s' "overworld" none [] = []) →
        t ≤ computeNewClaimCap none 200 "bob" 0 0 "overworld" [] 200) := by
  have hval : computeNewClaimCap none 200 "bob" 0 0 "overworld" [] 200 = 200 := by
    simp [computeNewClaimCap, newClaimCapAux, spawnBlocked, conflictsWithBases,
      offendersRaw, dedupeOffenders]
  refine ⟨⟨(compute_new_claim_cap_cases (some (0, 0, 60)) 200 "bob" 100 0
      "overworld" [] 200).2 50 (by decide) (by decide) (by decide) (by decide)
      (fun s' h1 h2 _ => absurd h2 (not_lt.mpr h1)), by decide⟩,
    hval,
    ((compute_new_claim_cap_cases none 200 "bob" 0 0 "overworld" [] 200).1
      (by rw [hval]; norm_num)).2.2.2.2⟩

-- ── C10: admin bypass in preview_status / full_claim_check ──────────────────

/-- The resolved settings consumed by `preview_status` and
`full_claim_check` (the `_settings` source merge, `get_setting_int`
parsing and the legacy-key fallback of `_spawn_cfg_for_dim` are
collapsed to their resolved values): admin names, the parsed overworld
spawn center with its raw protection radius, and the two spacing
rules. -/
structure CheckSettings where
  admins : List String
  worldspawnOverworld : Option (Int × Int)
  spawnProtectionRadiusOverworld : Int
  lcMinDistanceFromSpawn : Int
  lcMinDistanceBetweenBases : Int
deriving DecidableEq, Repr

/-- Embeds `_spawn_cfg_for_dim(plugin, "overworld")`: center plus radius
clamped to ≥ 0. -/
def spawnCfgOverworld (s : CheckSettings) : Option (Int × Int) × Int :=
  (s.worldspawnOverworld, max 0 s.spawnProtectionRadiusOverworld)

/-- The result record of `preview_status`. -/
structure PreviewStatus where
  inside_spawn_protect : Bool
  too_close_spawn_rule : Bool
  too_close_names : List String
  spr : Int
  d_spawn_rule : Int
  d_players_rule : Int
deriving DecidableEq, Repr

/-- The result record of `full_claim_check`. -/
structure FullClaimCheck where
  inside_spawn_protect : Bool
  too_close_spawn_rule : Bool
  conflicts : List String
  spr : Int
  d_spawn_rule : Int
  d_players_rule : Int
deriving DecidableEq, Repr

/-- Embeds `preview_status` from `checks.py`. Float comparisons are decided on
squares: `d < spr` as `distLt d2 spr`, `d - maxRadius < rule` as
`distLt d2 (rule + maxRadius)` and `d - (maxRadius + cr) < rule` as
`distLt d2 (rule + maxRadius + cr)`. The admin branch reports the raw
per-dimension radius setting, the normal branch the clamped
`_spawn_cfg_for_dim` radius, as in the source. -/
def preview_status (s : CheckSettings) (x z : Int) (ownerName : String)
    (maxRadiusIfClaimed : Int) (allClaimsList : List (String × Claim))
    (adminBypass : Bool) : PreviewStatus :=
  if adminBypass = true ∧ is_admin s.admins ownerName = true then
    { inside_spawn_protect := false
      too_close_spawn_rule := false
      too_close_names := []
      spr := s.spawnProtectionRadiusOverworld
      d_spawn_rule := s.lcMinDistanceFromSpawn
      d_players_rule := s.lcMinDistanceBetweenBases }
  else
    let scfg := spawnCfgOverworld s
    let insideSpawn := match scfg.1 with
      | none => false
      | some c => distLt (dist2Sq x z c.1 c.2) scfg.2
    let tooCloseSpawn := match scfg.1 with
      | none => false
      | some c => distLt (dist2Sq x z c.1 c.2)
          (s.lcMinDistanceFromSpawn + maxRadiusIfClaimed)
    let tooCloseNames := allClaimsList.filterMap (fun oc =>
      if distLt (dist2Sq x z oc.2.x oc.2.z)
          (s.lcMinDistanceBetweenBases + (maxRadiusIfClaimed + oc.2.radius))
            = true ∧ oc.1 ≠ ownerName
      then some oc.1 else none)
    { inside_spawn_protect := insideSpawn
      too_close_spawn_rule := tooCloseSpawn
      too_close_names := tooCloseNames
      spr := scfg.2
      d_spawn_rule := s.lcMinDistanceFromSpawn
      d_players_rule := s.lcMinDistanceBetweenBases }

/-- Embeds `full_claim_check` from `checks.py` (same shape as
`preview_status`, with the chosen radius and a `conflicts` list; both
branches report the clamped `_spawn_cfg_for_dim` radius). -/
def full_claim_check (s : CheckSettings) (x z chosenRadius : Int)
    (ownerName : String) (allClaimsList : List (String × Claim))
    (adminBypass : Bool) : FullClaimCheck :=
  if adminBypass = true ∧ is_admin s.admins ownerName = true then
    { inside_spawn_protect := false
      too_close_spawn_rule := false
      conflicts := []
      spr := (spawnCfgOverworld s).2
      d_spawn_rule := s.lcMinDistanceFromSpawn
      d_players_rule := s.lcMinDistanceBetweenBases }
  else
    let scfg := spawnCfgOverworld s
    let insideSpawn := match scfg.1 with
      | none => false
      | some c => distLt (dist2Sq x z c.1 c.2) scfg.2
    let tooCloseSpawn := match scfg.1 with
      | none => false
      | some c => distLt (dist2Sq x z c.1 c.2)
          (s.lcMinDistanceFromSpawn + chosenRadius)
    let conflicts := allClaimsList.filterMap (fun oc =>
      if distLt (dist2Sq x z oc.2.x oc.2.z)
          (s.lcMinDistanceBetweenBases + (chosenRadius + oc.2.radius))
            = true ∧ oc.1 ≠ ownerName
      then some oc.1 else none)
    { inside_spawn_protect := insideSpawn
      too_close_spawn_rule := tooCloseSpawn
      conflicts := conflicts
      spr := scfg.2
      d_spawn_rule := s.lcMinDistanceFromSpawn
      d_players_rule := s.lcMinDistanceBetweenBases }

/-- C10: with the default `admin_bypass=True`, an admin requester is
never reported inside spawn protection, too close to spawn or in
conflict with any claim, whatever the geometry — both `preview_status`
and `full_claim_check` short-circuit to the all-clear record. -/
theorem admin_bypass_spacing (s : CheckSettings) (x z maxR chosenR : Int)
    (owner : String) (claims : List (String × Claim))
    (h : is_admin s.admins owner = true) :
    (preview_status s x z owner maxR claims true).inside_spawn_protect
        = false ∧
    (preview_status s x z owner maxR claims true).too_close_spawn_rule
        = false ∧
    (preview_status s x z owner maxR claims true).too_close_names = [] ∧
    (full_claim_check s x z chosenR owner claims true).inside_spawn_protect
        = false ∧
    (full_claim_check s x z chosenR owner claims true).too_close_spawn_rule
        = false ∧
    (full_claim_check s x z chosenR owner claims true).conflicts = [] := by
  unfold preview_status full_claim_check
  rw [if_pos ⟨rfl, h⟩, if_pos ⟨rfl, h⟩]
  exact ⟨rfl, rfl, rfl, rfl, rfl, rfl⟩

/-- Witness for C10: an admin right at a configured spawn with a hostile
nearby claim gets the all-clear, while a plain player at the same spot
does not. -/
theorem admin_bypass_spacing_witness :
    ((preview_status ⟨["Admin"], some (0, 0), 100, 300, 200⟩ 0 0 "Admin" 100
        [("bob", testClaim 10 0 50 "overworld")] true).inside_spawn_protect
          = false ∧
      (preview_status ⟨["Admin"], some (0, 0), 100, 300, 200⟩ 0 0 "Admin" 100
        [("bob", testClaim 10 0 50 "overworld")] true).too_close_spawn_rule
          = false ∧
      (preview_status ⟨["Admin"], some (0, 0), 100, 300, 200⟩ 0 0 "Admin" 100
        [("bob", testClaim 10 0 50 "overworld")] true).too_close_names = [] ∧
      (full_claim_check ⟨["Admin"], some (0, 0), 100, 300, 200⟩ 0 0 100 "Admin"
        [("bob", testClaim 10 0 50 "overworld")] true).inside_spawn_protect
          = false ∧
      (full_claim_check ⟨["Admin"], some (0, 0), 100, 300, 200⟩ 0 0 100 "Admin"
        [("bob", testClaim 10 0 50 "overworld")] true).too_close_spawn_rule
          = false ∧
      (full_claim_check ⟨["Admin"], some (0, 0), 100, 300, 200⟩ 0 0 100 "Admin"
        [("bob", testClaim 10 0 50 "overworld")] true).conflicts = []) ∧
    (full_claim_check ⟨["Admin"], some (0, 0), 100, 300, 200⟩ 0 0 100 "carol"
        [("bob", testClaim 10 0 50 "overworld")] true).conflicts = ["bob"] ∧
    (full_claim_check ⟨["Admin"], some (0, 0), 100, 300, 200⟩ 0 0 100 "carol"
        [("bob", testClaim 10 0 50 "overworld")] true).inside_spawn_protect
          = true :=
  ⟨admin_bypass_spacing ⟨["Admin"], some (0, 0), 100, 300, 200⟩ 0 0 100 100
      "Admin" [("bob", testClaim 10 0 50 "overworld")] (by decide),
    by decide, by decide⟩

end LandClaim
